import Mathlib

/-!
Verification of the text-layout and compositing engine of the
ai_carrusel_creator repository (src/src/utils/canvasGenerator.ts, with the
highlight toggle from src/src/components/TextEditorPanel.tsx).

JavaScript numbers are modelled as rationals, strings as Lean strings
(lists of characters where index arithmetic matters), and the canvas
measurement provider as an explicit function parameter.
-/

namespace Carrusel

/-! ## Data model (src/src/types.ts) -/

inductive TextAlign where
  | left | center | right
deriving DecidableEq, Repr

inductive VerticalAlign where
  | top | center | bottom
deriving DecidableEq, Repr

structure ShadowState where
  enabled : Bool
  color : String
  blur : ℚ
  offsetX : ℚ
  offsetY : ℚ
deriving DecidableEq, Repr

structure StyleState where
  fontSize : ℚ
  color : String
  fontFamily : String
  textAlign : TextAlign
  shadow : ShadowState
  highlightColor : String
deriving DecidableEq, Repr

structure LayoutState where
  verticalAlign : VerticalAlign
  spacing : ℚ
deriving DecidableEq, Repr

structure CtaBackgroundState where
  color : String
  borderRadius : ℚ
  paddingX : ℚ
  paddingY : ℚ
deriving DecidableEq, Repr

structure CtaState where
  enabled : Bool
  text : String
  style : StyleState
  background : CtaBackgroundState
deriving DecidableEq, Repr

/-- A slide. `src` is `string | null` in the source, modelled as `Option String`. -/
structure Slide where
  id : String
  prompt : String
  src : Option String
  title : String
  body : String
  isLoading : Bool
  error : Option String
  titleStyle : StyleState
  bodyStyle : StyleState
  layoutStyle : LayoutState
  cta : CtaState
deriving DecidableEq, Repr

/-- JavaScript truthiness of a `string | null` value: `null` and `""` are falsy. -/
def jsTruthy : Option String → Bool
  | none => false
  | some s => !(s == "")

/-! ## Markup parser (`parseStyledText`, canvasGenerator.ts lines 5-17)

The source splits the text with `text.split(/(\*.*?\*|\n)/g)`, keeping the
captured delimiters, filters out empty strings, and then classifies each kept
part: a part equal to a newline becomes a break marker, a part that starts and
ends with an asterisk becomes a highlighted run with `part.slice(1, -1)` as its
text, and anything else becomes a plain run. -/

/-- One output run of `parseStyledText`. -/
structure Run where
  text : String
  isHighlighted : Bool
  isNewline : Bool
deriving DecidableEq, Repr

/-- A part produced by the regex split: either a segment of text between
matches (`seg`) or a captured match (`mat`, a newline or an asterisk pair). -/
inductive RawPart where
  | seg (s : List Char)
  | mat (s : List Char)
deriving DecidableEq, Repr

/-- The underlying characters of a part. -/
def RawPart.str : RawPart → List Char
  | .seg s => s
  | .mat s => s

/-- Lazy search for the closing asterisk of `\*.*?\*` in the characters that
follow an opening asterisk: the first later asterisk counts, provided no
newline occurs before it (in the source regex `.` does not match a newline).
Returns the enclosed characters and the remainder after the closing asterisk. -/
def findClose : List Char → Option (List Char × List Char)
  | [] => none
  | c :: rest =>
    if c = '*' then some ([], rest)
    else if c = '\n' then none
    else (findClose rest).map (fun pr => (c :: pr.1, pr.2))

/-- Emit the accumulated segment if it is nonempty (the `filter(Boolean)` of
the source drops empty parts). -/
def flushSeg (acc : List Char) : List RawPart :=
  if acc = [] then [] else [RawPart.seg acc]

/-- One pass of the regex split, fuelled to keep the recursion structural.
Each step consumes at least one character of the remainder, so a fuel equal to
the length of the remainder always suffices; the fuel-exhausted branch is
unreachable under that call pattern. -/
def splitRunGo : ℕ → List Char → List Char → List RawPart
  | _, acc, [] => flushSeg acc
  | 0, acc, rem => flushSeg (acc ++ rem)
  | fuel + 1, acc, c :: rest =>
    if c = '\n' then flushSeg acc ++ RawPart.mat ['\n'] :: splitRunGo fuel [] rest
    else if c = '*' then
      match findClose rest with
      | some (content, rest') =>
          flushSeg acc ++ RawPart.mat ('*' :: (content ++ ['*'])) :: splitRunGo fuel [] rest'
      | none => splitRunGo fuel (acc ++ ['*']) rest
    else splitRunGo fuel (acc ++ [c]) rest

/-- `text.split(/(\*.*?\*|\n)/g).filter(Boolean)` of the source. -/
def splitParts (cs : List Char) : List RawPart :=
  splitRunGo cs.length [] cs

/-- The classification the source applies to each kept part: `part === '\n'`
first, then `part.startsWith('*') && part.endsWith('*')` (which strips the
first and last character via `slice(1, -1)`), otherwise a plain run. -/
def classifyPart (p : List Char) : Run :=
  if p = ['\n'] then ⟨"", false, true⟩
  else if p.head? = some '*' ∧ p.getLast? = some '*' then
    ⟨String.mk (p.drop 1).dropLast, true, false⟩
  else ⟨String.mk p, false, false⟩

/-- `parseStyledText` (canvasGenerator.ts lines 5-17). -/
def parseStyledText (text : String) : List Run :=
  if text = "" then []
  else (splitParts text.toList).map (fun p => classifyPart p.str)

/-! ## Text layout engine (`getWrappedStyledTextMetrics`, canvasGenerator.ts
lines 19-54)

The measurement provider `ctx.measureText(...).width`, with the font already
set on the context, is modelled as a function `meas : String → ℚ`. -/

/-- A fragment of a visual line: one word (with its trailing space, except for
the last word of a run) together with the highlight flag of its run. -/
structure Fragment where
  text : String
  isHighlighted : Bool
deriving DecidableEq, Repr

/-- A visual line. -/
abbrev Line := List Fragment

/-- The loop state of the wrap: emitted lines, the line under construction and
its accumulated width. -/
structure WrapState where
  lines : List Line
  currentLine : Line
  currentLineWidth : ℚ
deriving DecidableEq, Repr

/-- JavaScript `text.split(' ')`: split at every space, keeping empty pieces
(so `""` gives `[""]` and `"a  b"` gives `["a", "", "b"]`). -/
def splitOnSpace : List Char → List (List Char)
  | [] => [[]]
  | c :: rest =>
    match splitOnSpace rest with
    | [] => [[c]]
    | p :: ps => if c = ' ' then [] :: p :: ps else (c :: p) :: ps

/-- The word list of a run, as the wrap loop consumes it: empty words are
skipped (the `if (!word) continue`), and every word except the last of its run
gets its trailing space re-attached before measurement. -/
def fragStrings : List String → List String
  | [] => []
  | [w] => if w = "" then [] else [w]
  | w :: rest => (if w = "" then [] else [w ++ " "]) ++ fragStrings rest

/-- The word-with-space strings produced from one parsed run. -/
def runFrags (r : Run) : List String :=
  fragStrings ((splitOnSpace r.text.toList).map (fun cs => String.mk cs))

/-- The body of the inner word loop (canvasGenerator.ts lines 42-48): if the
word no longer fits and the current line is nonempty, flush the line and start
a new one with the word; otherwise append the word. -/
def stepWord (meas : String → ℚ) (maxWidth : ℚ) (hl : Bool)
    (st : WrapState) (s : String) : WrapState :=
  let wordWidth := meas s
  if st.currentLineWidth + wordWidth > maxWidth ∧ st.currentLine ≠ [] then
    { lines := st.lines ++ [st.currentLine]
      currentLine := [⟨s, hl⟩]
      currentLineWidth := wordWidth }
  else
    { lines := st.lines
      currentLine := st.currentLine ++ [⟨s, hl⟩]
      currentLineWidth := st.currentLineWidth + wordWidth }

/-- The final flush (canvasGenerator.ts line 51): emit the trailing line if it
is nonempty. -/
def flushLines (st : WrapState) : List Line :=
  st.lines ++ if st.currentLine = [] then [] else [st.currentLine]

/-- The body of the outer run loop (canvasGenerator.ts lines 25-50): a break
marker flushes the current line (if nonempty) and pushes an explicit empty
line; a text run feeds its words through `stepWord`. -/
def stepRun (meas : String → ℚ) (maxWidth : ℚ) (st : WrapState) (r : Run) : WrapState :=
  if r.isNewline then
    { lines := flushLines st ++ [[]], currentLine := [], currentLineWidth := 0 }
  else
    (runFrags r).foldl (stepWord meas maxWidth r.isHighlighted) st

/-- The wrap result: the visual lines and the total block height. -/
structure WrapResult where
  lines : List Line
  height : ℚ
deriving DecidableEq, Repr

/-- `getWrappedStyledTextMetrics` (canvasGenerator.ts lines 19-54; the
identical inline copy lives at App.tsx lines 496-531). The line height is
`style.fontSize * 1.4`, written `7/5`. -/
def getWrappedStyledTextMetrics (meas : String → ℚ) (style : StyleState)
    (parsedText : List Run) (maxWidth : ℚ) : WrapResult :=
  let lineHeight := style.fontSize * (7/5)
  let final := parsedText.foldl (stepRun meas maxWidth) ⟨[], [], 0⟩
  let lines := flushLines final
  ⟨lines, lines.length * lineHeight⟩

/-- A length-based measurement provider used for concrete witnesses. -/
def measLen : String → ℚ := fun s => s.length

/-- A sample style used for concrete witnesses. -/
def sampleStyle : StyleState :=
  { fontSize := 10
    color := "#FFFFFF"
    fontFamily := "Inter"
    textAlign := TextAlign.left
    shadow := { enabled := false, color := "#000000", blur := 0, offsetX := 0, offsetY := 0 }
    highlightColor := "#FFD700" }


/-! ## Text drawing (`drawStyledTextLines`, canvasGenerator.ts lines 56-76) -/

/-- One `ctx.fillText` call: the fragment text, the fill color chosen from the
highlight flag, and the position. -/
structure DrawOp where
  text : String
  color : String
  x : ℚ
  y : ℚ
deriving DecidableEq, Repr

/-- The inner loop of `drawStyledTextLines` for one line: fragments are drawn
left to right, advancing the x cursor by the measured width of each. -/
def lineOps (meas : String → ℚ) (style : StyleState) (startX lineY : ℚ) :
    Line → List DrawOp
  | [] => []
  | p :: rest =>
    ⟨p.text, if p.isHighlighted then style.highlightColor else style.color, startX, lineY⟩ ::
      lineOps meas style (startX + meas p.text) lineY rest

/-- `drawStyledTextLines` (canvasGenerator.ts lines 56-76): each line is
placed at `y + i * lineHeight` with `lineHeight = style.fontSize * 1.4`, and
justified against the full canvas width per the style alignment. -/
def drawStyledTextLines (meas : String → ℚ) (canvasWidth : ℚ) (lines : List Line)
    (x y : ℚ) (style : StyleState) : List DrawOp :=
  let lineHeight := style.fontSize * (7/5)
  (lines.enum).flatMap (fun il =>
    let lineY := y + il.1 * lineHeight
    let fullLineWidth := (il.2.map (fun p => meas p.text)).sum
    let startX :=
      if style.textAlign = TextAlign.center then x + (canvasWidth - x * 2 - fullLineWidth) / 2
      else if style.textAlign = TextAlign.right then canvasWidth - x - fullLineWidth
      else x
    lineOps meas style startX lineY il.2)

/-! ## Style scaler (`scaleStyle`, canvasGenerator.ts lines 99-102) -/

/-- `scaleStyle`: font size and the shadow blur and offsets scale; every other
field is carried over by the object spread. -/
def scaleStyle (style : StyleState) (scale : ℚ) : StyleState :=
  { style with
    fontSize := style.fontSize * scale
    shadow := { style.shadow with
      blur := style.shadow.blur * scale
      offsetX := style.shadow.offsetX * scale
      offsetY := style.shadow.offsetY * scale } }

/-! ## Slide compositor (`createSlideCanvas`, canvasGenerator.ts lines 80-239) -/

/-- `Math.round` on a rational: round half up. -/
def jsRound (q : ℚ) : ℤ := ⌊q + 1/2⌋

/-- The aspect ratio switch of the app. The `'4:5'` label is implemented as a
`4/3` height factor everywhere pixel math occurs. -/
inductive AspectRatio where
  | ratio11
  | ratio45
deriving DecidableEq, Repr

/-- The overlay configuration passed to the compositor. -/
structure ImageOverlay where
  enabled : Bool
  color : String
  opacity : ℚ
deriving DecidableEq, Repr

/-- Canvas dimensions (canvasGenerator.ts lines 93-95): width is the fixed
output size 1080; height is 1080 for `'1:1'` and `Math.round(1080 * (4/3))`
otherwise. -/
def canvasDims (aspectRatio : AspectRatio) : ℤ × ℤ :=
  (1080, if aspectRatio = AspectRatio.ratio11 then 1080 else jsRound (1080 * (4/3)))

/-- A font setting `ctx.font = ...`, as weight, pixel size and family. -/
structure FontSpec where
  weight : String
  size : ℚ
  family : String
deriving DecidableEq, Repr

/-- The JavaScript guard `slide.cta.enabled && slide.cta.text` of lines 168,
181 and 218. -/
def ctaActive (slide : Slide) : Bool :=
  slide.cta.enabled && !(slide.cta.text == "")

/-- Everything the compositor computes between lines 151 and 191: wrapped
title, body and CTA metrics, the CTA pill box, the stacked total text height
and the vertical start position. -/
structure LayoutMetrics where
  padding : ℚ
  contentWidth : ℚ
  scaledSpacing : ℚ
  ctaMarginTop : ℚ
  titleLines : List Line
  titleHeight : ℚ
  bodyLines : List Line
  bodyHeight : ℚ
  ctaLines : List Line
  ctaBlockHeight : ℚ
  ctaBlockWidth : Option ℚ
  totalTextHeight : ℚ
  startY : ℚ
deriving DecidableEq, Repr

/-- The text measurement and placement steps of `createSlideCanvas`
(canvasGenerator.ts lines 99-109 and 151-191). `meas font s` stands for
`ctx.measureText(s).width` with `ctx.font` set to `font`. `Math.max()`
applied to an empty spread (line 176, when the CTA text wraps to zero lines)
returns `-Infinity` in JavaScript; that branch is modelled as `none`, every
well-defined pill width as `some`. -/
def slideLayout (meas : FontSpec → String → ℚ) (slide : Slide) (scale : ℚ)
    (canvasHeight : ℚ) (reservedLogoHeight : ℚ) : LayoutMetrics :=
  let outputSize : ℚ := 1080
  let scaledTitleStyle := scaleStyle slide.titleStyle scale
  let scaledBodyStyle := scaleStyle slide.bodyStyle scale
  let scaledCtaStyle := scaleStyle slide.cta.style scale
  let scaledCtaBgPaddingX := slide.cta.background.paddingX * scale
  let scaledCtaBgPaddingY := slide.cta.background.paddingY * scale
  let scaledSpacing := slide.layoutStyle.spacing * scale
  let ctaMarginTop := 16 * scale
  let padding := outputSize * (7/100)
  let contentWidth := outputSize - padding * 2
  let titleFont : FontSpec := ⟨"bold", scaledTitleStyle.fontSize, scaledTitleStyle.fontFamily⟩
  let titleMetrics :=
    getWrappedStyledTextMetrics (meas titleFont) scaledTitleStyle
      (parseStyledText slide.title) contentWidth
  let bodyFont : FontSpec := ⟨"normal", scaledBodyStyle.fontSize, scaledBodyStyle.fontFamily⟩
  let bodyMetrics :=
    getWrappedStyledTextMetrics (meas bodyFont) scaledBodyStyle
      (parseStyledText slide.body) contentWidth
  let ctaFont : FontSpec := ⟨"bold", scaledCtaStyle.fontSize, scaledCtaStyle.fontFamily⟩
  let ctaMetrics :=
    getWrappedStyledTextMetrics (meas ctaFont) scaledCtaStyle
      (parseStyledText slide.cta.text) (contentWidth - scaledCtaBgPaddingX * 2)
  let ctaLines := if ctaActive slide then ctaMetrics.lines else []
  let ctaBlockHeight := if ctaActive slide then ctaMetrics.height + scaledCtaBgPaddingY * 2 else 0
  let ctaBlockWidth : Option ℚ :=
    if ctaActive slide then
      match ctaMetrics.lines.map
          (fun line => meas ctaFont (String.join (line.map (fun p => p.text)))) with
      | [] => none
      | w :: ws => some (ws.foldl max w + scaledCtaBgPaddingX * 2)
    else some 0
  let totalTextHeight := titleMetrics.height + scaledSpacing + bodyMetrics.height +
    (if ctaActive slide then ctaMarginTop + ctaBlockHeight else 0)
  let startY :=
    match slide.layoutStyle.verticalAlign with
    | VerticalAlign.top => if reservedLogoHeight > 0 then reservedLogoHeight + padding else padding
    | VerticalAlign.center =>
        let s0 := (canvasHeight - totalTextHeight) / 2
        if s0 < reservedLogoHeight + padding then reservedLogoHeight + padding else s0
    | VerticalAlign.bottom => canvasHeight - padding - totalTextHeight
  { padding := padding
    contentWidth := contentWidth
    scaledSpacing := scaledSpacing
    ctaMarginTop := ctaMarginTop
    titleLines := titleMetrics.lines
    titleHeight := titleMetrics.height
    bodyLines := bodyMetrics.lines
    bodyHeight := bodyMetrics.height
    ctaLines := ctaLines
    ctaBlockHeight := ctaBlockHeight
    ctaBlockWidth := ctaBlockWidth
    totalTextHeight := totalTextHeight
    startY := startY }

/-- The composited surface: canvas dimensions, which optional elements were
actually drawn, the layout computation, and the text draw calls. -/
structure SlideCanvas where
  width : ℤ
  height : ℤ
  bgDrawn : Bool
  overlayDrawn : Bool
  logoDrawn : Bool
  reservedLogoHeight : ℚ
  layout : LayoutMetrics
  titleOps : List DrawOp
  bodyOps : List DrawOp
  ctaOps : List DrawOp
deriving DecidableEq, Repr

/-- `createSlideCanvas` (canvasGenerator.ts lines 80-239). Environment
capabilities are explicit: `ctxOk` is whether `canvas.getContext('2d')`
succeeds, `bgLoads` and `logoLoads` whether the background and logo image
loads succeed (a failed load resolves instead of rejecting, lines 126-129, and
a failed image is not painted), `logoNatW`/`logoNatH` the natural size of the
loaded logo. The function returns `null` before any drawing when the slide
`src` is falsy (line 88) or the context is unavailable (line 91); load
failures only omit the failed element. -/
def createSlideCanvas (meas : FontSpec → String → ℚ) (ctxOk bgLoads logoLoads : Bool)
    (logoNatW logoNatH : ℚ) (slide : Slide) (logo : Option String) (logoSize : ℚ)
    (imageOverlay : ImageOverlay) (aspectRatio : AspectRatio) (previewWidth : ℚ) :
    Option SlideCanvas :=
  if !jsTruthy slide.src then none
  else if !ctxOk then none
  else
    let outputSize : ℚ := 1080
    let dims := canvasDims aspectRatio
    let canvasW : ℚ := dims.1
    let canvasH : ℚ := dims.2
    let scale := outputSize / previewWidth
    let scaledTitleStyle := scaleStyle slide.titleStyle scale
    let scaledBodyStyle := scaleStyle slide.bodyStyle scale
    let scaledCtaStyle := scaleStyle slide.cta.style scale
    let scaledCtaBgPaddingX := slide.cta.background.paddingX * scale
    let scaledCtaBgPaddingY := slide.cta.background.paddingY * scale
    let logoPadding := outputSize * (4/100)
    let logoShown := jsTruthy logo && logoLoads
    let reservedLogoHeight :=
      if logoShown then
        logoPadding + (outputSize * (logoSize / 100)) / (logoNatW / logoNatH)
      else 0
    let layout := slideLayout meas slide scale canvasH reservedLogoHeight
    let titleFont : FontSpec := ⟨"bold", scaledTitleStyle.fontSize, scaledTitleStyle.fontFamily⟩
    let bodyFont : FontSpec := ⟨"normal", scaledBodyStyle.fontSize, scaledBodyStyle.fontFamily⟩
    let ctaFont : FontSpec := ⟨"bold", scaledCtaStyle.fontSize, scaledCtaStyle.fontFamily⟩
    let titleOps :=
      drawStyledTextLines (meas titleFont) canvasW layout.titleLines layout.padding
        layout.startY scaledTitleStyle
    let titleBottom := layout.startY + layout.titleHeight
    let bodyOps :=
      drawStyledTextLines (meas bodyFont) canvasW layout.bodyLines layout.padding
        (titleBottom + layout.scaledSpacing) scaledBodyStyle
    let bodyBottom := titleBottom + layout.scaledSpacing + layout.bodyHeight
    let ctaOps :=
      if ctaActive slide then
        let ctaBlockY := bodyBottom + layout.ctaMarginTop
        let ctaBlockX :=
          match slide.cta.style.textAlign, layout.ctaBlockWidth with
          | TextAlign.center, some w => (canvasW - w) / 2
          | TextAlign.right, some w => canvasW - layout.padding - w
          | _, _ => layout.padding
        drawStyledTextLines (meas ctaFont) canvasW layout.ctaLines
          (ctaBlockX + scaledCtaBgPaddingX) (ctaBlockY + scaledCtaBgPaddingY) scaledCtaStyle
      else []
    some
      { width := dims.1
        height := dims.2
        bgDrawn := bgLoads
        overlayDrawn := imageOverlay.enabled && decide (imageOverlay.opacity > 0)
        logoDrawn := logoShown
        reservedLogoHeight := reservedLogoHeight
        layout := layout
        titleOps := titleOps
        bodyOps := bodyOps
        ctaOps := ctaOps }

/-! ## Highlight toggle (`handleApplyHighlight`, TextEditorPanel.tsx lines
159-175)

Only the text transformation is modelled; the selection bookkeeping around it
is UI state. Indices are as in the handler: `start`/`end` delimit the selected
range, `charAt` out of range yields the empty string (never an asterisk), and
`substring` with in-range arguments is take/drop. -/

/-- JavaScript `text.charAt(i)` as an optional character: out-of-range
indices (including negative ones) give the empty string, i.e. no character. -/
def jsCharAt (l : List Char) (i : ℤ) : Option Char :=
  if 0 ≤ i then l.get? i.toNat else none

/-- The `isAlreadyWrapped` test of the handler:
`originalText.charAt(start - 1) === '*' && originalText.charAt(end) === '*'`. -/
def isAlreadyWrapped (l : List Char) (s e : ℕ) : Bool :=
  (jsCharAt l ((s : ℤ) - 1) == some '*') && (jsCharAt l (e : ℤ) == some '*')

/-- The text transformation of `handleApplyHighlight`: unwrap when the range
is already asterisk-wrapped, otherwise wrap the selected range in asterisks. -/
def applyHighlight (l : List Char) (s e : ℕ) : List Char :=
  if isAlreadyWrapped l s e then
    l.take (s - 1) ++ (l.drop s).take (e - s) ++ l.drop (e + 1)
  else
    l.take s ++ '*' :: ((l.drop s).take (e - s) ++ '*' :: l.drop e)

/-! ## Concrete data for witnesses -/

/-- A CTA background sample. -/
def sampleCtaBg : CtaBackgroundState :=
  { color := "#000000", borderRadius := 8, paddingX := 12, paddingY := 6 }

/-- A slide sample: resolved image, simple texts, CTA enabled. -/
def sampleSlide : Slide :=
  { id := "s1"
    prompt := "a sunset"
    src := some "blob:image"
    title := "Hello"
    body := "World"
    isLoading := false
    error := none
    titleStyle := sampleStyle
    bodyStyle := sampleStyle
    layoutStyle := { verticalAlign := VerticalAlign.bottom, spacing := 12 }
    cta := { enabled := true, text := "Shop Now", style := sampleStyle,
             background := sampleCtaBg } }

/-- A font-indexed length measurement for witnesses. -/
def measLenF : FontSpec → String → ℚ := fun _ s => s.length

/-- The overlay switched off. -/
def overlayOff : ImageOverlay := { enabled := false, color := "#000000", opacity := 0 }

/-- A slide whose src is the empty string (a falsy value distinct from null). -/
def emptySrcSlide : Slide := { sampleSlide with src := some "" }

/-- A slide whose CTA is enabled with text a single space. -/
def spaceCtaSlide : Slide :=
  { sampleSlide with
    cta := { enabled := true, text := " ", style := sampleStyle, background := sampleCtaBg } }

/-- The summed measured width of the fragments of one visual line. -/
def lineSum (meas : String → ℚ) (l : Line) : ℚ := (l.map (fun f => meas f.text)).sum

/-- A line respects the width bound unless it holds fewer than two fragments. -/
def LineOK (meas : String → ℚ) (maxWidth : ℚ) (l : Line) : Prop :=
  2 ≤ l.length → lineSum meas l ≤ maxWidth

/-- The wrap loop invariant: the tracked width is the sum over the line under
construction, and every line, emitted or under construction, respects
`LineOK`. -/
def WrapInv (meas : String → ℚ) (maxWidth : ℚ) (st : WrapState) : Prop :=
  st.currentLineWidth = lineSum meas st.currentLine ∧
  (∀ l ∈ st.lines, LineOK meas maxWidth l) ∧
  LineOK meas maxWidth st.currentLine

/-! ## Sanity checks -/

example : parseStyledText "" = [] := by decide

example : parseStyledText "The Power of *Red*" =
    [⟨"The Power of ", false, false⟩, ⟨"Red", true, false⟩] := by decide

example : parseStyledText "A\nB" =
    [⟨"A", false, false⟩, ⟨"", false, true⟩, ⟨"B", false, false⟩] := by decide

example : parseStyledText "a*b" = [⟨"a*b", false, false⟩] := by decide

example : parseStyledText "**" = [⟨"", true, false⟩] := by decide

example : parseStyledText "*a\nb*" =
    [⟨"*a", false, false⟩, ⟨"", false, true⟩, ⟨"b*", false, false⟩] := by decide

example :
    (getWrappedStyledTextMetrics measLen sampleStyle (parseStyledText "A\nB") 100).lines =
      [[⟨"A", false⟩], [], [⟨"B", false⟩]] := by with_unfolding_all decide

example :
    (getWrappedStyledTextMetrics measLen sampleStyle (parseStyledText "aa bb cc") 5).lines =
      [[⟨"aa ", false⟩], [⟨"bb ", false⟩, ⟨"cc", false⟩]] := by with_unfolding_all decide

example :
    (getWrappedStyledTextMetrics measLen sampleStyle (parseStyledText " ") 5).lines = [] := by
  with_unfolding_all decide

example :
    (getWrappedStyledTextMetrics measLen sampleStyle (parseStyledText "aa bb") 4).height =
      2 * (10 * (7/5)) := by with_unfolding_all decide

/-! ## Helper lemmas -/

/-- Every draw op emitted for one visual line carries the y of that line. -/
theorem mem_lineOps_y (meas : String → ℚ) (style : StyleState) :
    ∀ (line : Line) (startX lineY : ℚ) (op : DrawOp),
      op ∈ lineOps meas style startX lineY line → op.y = lineY := by
  intro line
  induction line with
  | nil => intro startX lineY op h; simp [lineOps] at h
  | cons p rest ih =>
    intro startX lineY op h
    rcases List.mem_cons.1 h with h | h
    · subst h; rfl
    · exact ih _ _ _ h

/-- `stepWord` treats already emitted lines as a passed-through prefix. -/
theorem stepWord_shift (meas : String → ℚ) (maxWidth : ℚ) (hl : Bool)
    (L : List Line) (st : WrapState) (s : String) :
    stepWord meas maxWidth hl ⟨L ++ st.lines, st.currentLine, st.currentLineWidth⟩ s =
      ⟨L ++ (stepWord meas maxWidth hl st s).lines,
       (stepWord meas maxWidth hl st s).currentLine,
       (stepWord meas maxWidth hl st s).currentLineWidth⟩ := by
  simp only [stepWord]
  split_ifs with h
  · simp
  · simp

/-- The word loop over a run treats emitted lines as a passed-through prefix. -/
theorem foldlWords_shift (meas : String → ℚ) (maxWidth : ℚ) (hl : Bool) (ws : List String) :
    ∀ (L : List Line) (st : WrapState),
      ws.foldl (stepWord meas maxWidth hl) ⟨L ++ st.lines, st.currentLine, st.currentLineWidth⟩ =
        ⟨L ++ (ws.foldl (stepWord meas maxWidth hl) st).lines,
         (ws.foldl (stepWord meas maxWidth hl) st).currentLine,
         (ws.foldl (stepWord meas maxWidth hl) st).currentLineWidth⟩ := by
  induction ws with
  | nil => intro L st; rfl
  | cons w ws ih =>
    intro L st
    simp only [List.foldl_cons]
    rw [stepWord_shift, ih]

/-- The final flush keeps an emitted prefix in place. -/
theorem flushLines_shift (L : List Line) (st : WrapState) :
    flushLines ⟨L ++ st.lines, st.currentLine, st.currentLineWidth⟩ = L ++ flushLines st := by
  simp [flushLines, List.append_assoc]

/-- The run loop treats emitted lines as a passed-through prefix. -/
theorem stepRun_shift (meas : String → ℚ) (maxWidth : ℚ) (L : List Line)
    (st : WrapState) (r : Run) :
    stepRun meas maxWidth ⟨L ++ st.lines, st.currentLine, st.currentLineWidth⟩ r =
      ⟨L ++ (stepRun meas maxWidth st r).lines,
       (stepRun meas maxWidth st r).currentLine,
       (stepRun meas maxWidth st r).currentLineWidth⟩ := by
  unfold stepRun
  by_cases h : r.isNewline = true
  · simp only [h, if_true, flushLines_shift]
    simp [List.append_assoc]
  · simp only [h, if_false, Bool.false_eq_true]
    exact foldlWords_shift meas maxWidth r.isHighlighted (runFrags r) L st

/-- The whole run fold treats emitted lines as a passed-through prefix. -/
theorem foldlRuns_shift (meas : String → ℚ) (maxWidth : ℚ) (runs : List Run) :
    ∀ (L : List Line) (st : WrapState),
      runs.foldl (stepRun meas maxWidth) ⟨L ++ st.lines, st.currentLine, st.currentLineWidth⟩ =
        ⟨L ++ (runs.foldl (stepRun meas maxWidth) st).lines,
         (runs.foldl (stepRun meas maxWidth) st).currentLine,
         (runs.foldl (stepRun meas maxWidth) st).currentLineWidth⟩ := by
  induction runs with
  | nil => intro L st; rfl
  | cons r rs ih =>
    intro L st
    simp only [List.foldl_cons]
    rw [stepRun_shift, ih]

/-- `stepWord` preserves the wrap invariant. -/
theorem stepWord_inv (meas : String → ℚ) (maxWidth : ℚ) (hl : Bool) (s : String)
    (st : WrapState) (h : WrapInv meas maxWidth st) :
    WrapInv meas maxWidth (stepWord meas maxWidth hl st s) := by
  obtain ⟨hw, hlines, hcur⟩ := h
  simp only [stepWord]
  split_ifs with hc
  · refine ⟨by simp [lineSum], ?_, ?_⟩
    · intro l hl'
      rcases List.mem_append.1 hl' with h | h
      · exact hlines l h
      · rw [List.mem_singleton.1 h]; exact hcur
    · intro h2; simp at h2
  · refine ⟨by simp [lineSum, hw], hlines, ?_⟩
    intro hlen
    have hne : st.currentLine ≠ [] := by
      intro hnil; rw [hnil] at hlen; simp at hlen
    have hle : st.currentLineWidth + meas s ≤ maxWidth := by
      by_contra hgt
      push_neg at hgt
      exact hc ⟨hgt, hne⟩
    calc lineSum meas (st.currentLine ++ [⟨s, hl⟩])
        = lineSum meas st.currentLine + meas s := by simp [lineSum]
      _ = st.currentLineWidth + meas s := by rw [hw]
      _ ≤ maxWidth := hle

/-- The word loop preserves the wrap invariant. -/
theorem foldlWords_inv (meas : String → ℚ) (maxWidth : ℚ) (hl : Bool) (ws : List String) :
    ∀ st : WrapState, WrapInv meas maxWidth st →
      WrapInv meas maxWidth (ws.foldl (stepWord meas maxWidth hl) st) := by
  induction ws with
  | nil => intro st h; exact h
  | cons w ws ih =>
    intro st h
    exact ih _ (stepWord_inv meas maxWidth hl w st h)

/-- The run step preserves the wrap invariant. -/
theorem stepRun_inv (meas : String → ℚ) (maxWidth : ℚ) (r : Run)
    (st : WrapState) (h : WrapInv meas maxWidth st) :
    WrapInv meas maxWidth (stepRun meas maxWidth st r) := by
  unfold stepRun
  split_ifs with hn
  · obtain ⟨hw, hlines, hcur⟩ := h
    refine ⟨by simp [lineSum], ?_, by intro h2; simp at h2⟩
    intro l hl'
    rcases List.mem_append.1 hl' with h | h
    · unfold flushLines at h
      rcases List.mem_append.1 h with h | h
      · exact hlines l h
      · split_ifs at h with hnil
        · simp at h
        · rw [List.mem_singleton.1 h]; exact hcur
    · rw [List.mem_singleton.1 h]
      intro h2; simp at h2
  · exact foldlWords_inv meas maxWidth r.isHighlighted (runFrags r) st h

/-- The closing search consumes at least one character. -/
theorem findClose_length :
    ∀ (cs content rest' : List Char), findClose cs = some (content, rest') →
      rest'.length < cs.length := by
  intro cs
  induction cs with
  | nil => intro _ _ h; simp [findClose] at h
  | cons c rest ih =>
    intro content rest' h
    simp only [findClose] at h
    split_ifs at h with h1 h2
    · obtain ⟨-, rfl⟩ : [] = content ∧ rest = rest' := by simpa using h
      simp
    · obtain ⟨⟨c1, r1⟩, hfc, heq⟩ := Option.map_eq_some'.1 h
      obtain ⟨-, rfl⟩ : c :: c1 = content ∧ r1 = rest' := by simpa using heq
      exact Nat.lt_succ_of_lt (ih c1 r1 hfc)

/-- An asterisk with no earlier newline in the prefix guarantees the closing
search succeeds. -/
theorem findClose_isSome_append (l r : List Char) (hn : '\n' ∉ l) (hs : '*' ∈ l) :
    (findClose (l ++ r)).isSome = true := by
  induction l with
  | nil => simp at hs
  | cons c cs ih =>
    rw [List.cons_append]
    simp only [findClose]
    by_cases hc : c = '*'
    · simp [hc]
    · have hcn : c ≠ '\n' := fun h => hn (h ▸ List.mem_cons_self c cs)
      rw [if_neg hc, if_neg hcn]
      have hs' : '*' ∈ cs := by
        rcases List.mem_cons.1 hs with h | h
        · exact absurd h.symm hc
        · exact h
      have hn' : '\n' ∉ cs := fun h => hn (List.mem_cons_of_mem c h)
      simpa [Option.isSome_map] using ih hn' hs'

/-- The invariant of the split accumulator: no newline is ever accumulated,
and when the pending segment starts with an asterisk, the closing search from
that asterisk over the rest of the input has already failed. -/
def SegInv (acc rem : List Char) : Prop :=
  '\n' ∉ acc ∧ (acc.head? = some '*' → findClose (acc.tail ++ rem) = none)

/-- Flushing a pending segment under the invariant yields a part that is
nonempty, newline-free, and not asterisk-delimited unless it is the single
character asterisk. -/
theorem seg_of_flushSeg (acc rem : List Char) (hinv : SegInv acc rem) (p : List Char)
    (hp : RawPart.seg p ∈ flushSeg acc) :
    p ≠ [] ∧ '\n' ∉ p ∧ ¬(p.head? = some '*' ∧ p.getLast? = some '*' ∧ 2 ≤ p.length) := by
  unfold flushSeg at hp
  split_ifs at hp with hnil
  · simp at hp
  · have hpe : p = acc := by
      have h1 := List.mem_singleton.1 hp
      exact (RawPart.seg.injEq p acc ▸ congrArg RawPart.str h1 : p = acc)
    subst hpe
    refine ⟨hnil, hinv.1, ?_⟩
    rintro ⟨hh, hlast, hlen2⟩
    have hmem : '*' ∈ p.tail := by
      cases p with
      | nil => simp at hh
      | cons a t =>
        cases t with
        | nil => simp at hlen2
        | cons b u =>
          rw [List.getLast?_cons_cons] at hlast
          exact List.mem_of_getLast?_eq_some hlast
    have hnl : '\n' ∉ p.tail := fun h => hinv.1 (List.mem_of_mem_tail h)
    have hsome := findClose_isSome_append p.tail rem hnl hmem
    rw [hinv.2 hh] at hsome
    simp at hsome

/-- The structural invariant of the regex split: every between-match segment
is nonempty, newline-free, and never both starts and ends with an asterisk at
length two or more (a would-be match), leaving the isolated single asterisk
as the only asterisk-delimited segment shape. -/
theorem splitRunGo_seg (fuel : ℕ) :
    ∀ (acc rem : List Char), rem.length ≤ fuel → SegInv acc rem →
      ∀ p, RawPart.seg p ∈ splitRunGo fuel acc rem →
        p ≠ [] ∧ '\n' ∉ p ∧ ¬(p.head? = some '*' ∧ p.getLast? = some '*' ∧ 2 ≤ p.length) := by
  induction fuel with
  | zero =>
    intro acc rem hlen hinv p hp
    have hrem : rem = [] := List.length_eq_zero.1 (Nat.le_zero.1 hlen)
    subst hrem
    exact seg_of_flushSeg acc [] hinv p hp
  | succ fuel ih =>
    intro acc rem hlen hinv p hp
    cases rem with
    | nil => exact seg_of_flushSeg acc [] hinv p hp
    | cons c rest =>
      have hrest : rest.length ≤ fuel := by
        simpa using Nat.succ_le_succ_iff.1 hlen
      simp only [splitRunGo] at hp
      split_ifs at hp with hc hstar
      · rcases List.mem_append.1 hp with h | h
        · exact seg_of_flushSeg acc (c :: rest) hinv p h
        · rcases List.mem_cons.1 h with h | h
          · exact absurd h (by simp)
          · exact ih [] rest hrest ⟨by simp, by simp⟩ p h
      · rcases hfc : findClose rest with _ | ⟨content, rest'⟩
        · rw [hfc] at hp
          refine ih (acc ++ ['*']) rest hrest ⟨?_, ?_⟩ p hp
          · intro h
            rcases List.mem_append.1 h with h | h
            · exact hinv.1 h
            · simp at h
          · intro hh
            cases acc with
            | nil => simpa using hfc
            | cons a t =>
              have ha : a = '*' := by simpa using hh
              have := hinv.2 (by simp [ha])
              simpa [List.append_assoc, hstar] using this
        · rw [hfc] at hp
          rcases List.mem_append.1 hp with h | h
          · exact seg_of_flushSeg acc (c :: rest) hinv p h
          · rcases List.mem_cons.1 h with h | h
            · exact absurd h (by simp)
            · have hlt : rest'.length ≤ fuel :=
                le_trans (Nat.le_of_lt (findClose_length rest content rest' hfc)) hrest
              exact ih [] rest' hlt ⟨by simp, by simp⟩ p h
      · refine ih (acc ++ [c]) rest hrest ⟨?_, ?_⟩ p hp
        · intro h
          rcases List.mem_append.1 h with h | h
          · exact hinv.1 h
          · simp only [List.mem_singleton] at h
            exact hc h.symm
        · intro hh
          cases acc with
          | nil => exact absurd (by simpa using hh) hstar
          | cons a t =>
            have ha : a = '*' := by simpa using hh
            have := hinv.2 (by simp [ha])
            simpa [List.append_assoc] using this

/-- The whole run fold preserves the wrap invariant. -/
theorem foldlRuns_inv (meas : String → ℚ) (maxWidth : ℚ) (runs : List Run) :
    ∀ st : WrapState, WrapInv meas maxWidth st →
      WrapInv meas maxWidth (runs.foldl (stepRun meas maxWidth) st) := by
  induction runs with
  | nil => intro st h; exact h
  | cons r rs ih =>
    intro st h
    exact ih _ (stepRun_inv meas maxWidth r st h)

/-! ## Claim theorems -/

/-- C1: for every sequence of parsed runs, style, width limit and nonnegative
measurement function, a wrapped line holding two or more fragments has summed
measured width at most `maxWidth`, and a fragment measuring more than
`maxWidth` is always the only fragment of its line (the word is kept whole,
alone on its own line). -/
theorem wrap_width_bound (meas : String → ℚ) (style : StyleState) (parsedText : List Run)
    (maxWidth : ℚ) (hm : ∀ s, 0 ≤ meas s) :
    ∀ line ∈ (getWrappedStyledTextMetrics meas style parsedText maxWidth).lines,
      (2 ≤ line.length → lineSum meas line ≤ maxWidth) ∧
      (∀ f ∈ line, maxWidth < meas f.text → line = [f]) := by
  intro line hline
  have hinv : WrapInv meas maxWidth (parsedText.foldl (stepRun meas maxWidth) ⟨[], [], 0⟩) :=
    foldlRuns_inv meas maxWidth parsedText ⟨[], [], 0⟩
      ⟨by simp [lineSum], by simp, by intro h2; simp at h2⟩
  obtain ⟨hw, hlines, hcur⟩ := hinv
  have hgood : LineOK meas maxWidth line := by
    have hmem : line ∈ flushLines (parsedText.foldl (stepRun meas maxWidth) ⟨[], [], 0⟩) := hline
    unfold flushLines at hmem
    rcases List.mem_append.1 hmem with h | h
    · exact hlines line h
    · split_ifs at h with hnil
      · simp at h
      · rw [List.mem_singleton.1 h]; exact hcur
  refine ⟨hgood, ?_⟩
  intro f hf hbig
  have hle : meas f.text ≤ lineSum meas line := by
    have hmm : meas f.text ∈ line.map (fun g => meas g.text) :=
      List.mem_map_of_mem _ hf
    exact List.single_le_sum
      (by intro x hx; obtain ⟨g, _, rfl⟩ := List.mem_map.1 hx; exact hm g.text) _ hmm
  have hlen : line.length ≤ 1 := by
    by_contra hgt
    push_neg at hgt
    have hb := hgood (by omega)
    exact absurd (le_trans hle hb) (not_le.2 hbig)
  cases line with
  | nil => simp at hf
  | cons x xs =>
    cases xs with
    | nil => rw [List.mem_singleton.1 hf]
    | cons y ys => simp at hlen

/-- C3 counterexample: the input `"*"` consists of one unmatched asterisk,
yet parse yields a single highlighted run with empty text — the asterisk does
not appear verbatim inside a plain-text run, and a highlighted run does
appear. The single-character part passes both `startsWith('*')` and
`endsWith('*')`, so `slice(1, -1)` erases it. -/
theorem parse_lone_star_highlighted :
    parseStyledText "*" = [⟨"", true, false⟩] ∧
    (∀ r ∈ parseStyledText "*", r.isHighlighted = true ∧ r.text ≠ "*") := by
  constructor
  · decide
  · decide

/-- C3 (amended): every between-match segment of the split — in particular
the remainder from any unmatched asterisk — is emitted verbatim as a
plain-text, non-highlighted run, except when the segment is exactly the
isolated single asterisk `"*"`, which the classifier turns into a highlighted
run with empty text. -/
theorem parse_unmatched_star_plain (t : String) (p : List Char)
    (hp : RawPart.seg p ∈ splitParts t.toList) (hne : p ≠ ['*']) :
    classifyPart p = ⟨String.mk p, false, false⟩ ∧
    Run.mk (String.mk p) false false ∈ parseStyledText t := by
  unfold splitParts at hp
  obtain ⟨hnil, hnl, hstar⟩ :=
    splitRunGo_seg t.toList.length [] t.toList le_rfl ⟨by simp, by simp⟩ p hp
  have h1 : p ≠ ['\n'] := by
    intro h
    rw [h] at hnl
    simp at hnl
  have h2 : ¬(p.head? = some '*' ∧ p.getLast? = some '*') := by
    rintro ⟨hh, hl⟩
    have hlen : p.length ≤ 1 := by
      by_contra hgt
      push_neg at hgt
      exact hstar ⟨hh, hl, hgt⟩
    cases p with
    | nil => exact hnil rfl
    | cons a t2 =>
      cases t2 with
      | nil =>
        have ha : a = '*' := by simpa using hh
        exact hne (by rw [ha])
      | cons b u => simp at hlen
  have hcls : classifyPart p = ⟨String.mk p, false, false⟩ := by
    unfold classifyPart
    rw [if_neg h1, if_neg h2]
  refine ⟨hcls, ?_⟩
  unfold parseStyledText
  split_ifs with ht
  · rw [ht] at hp
    simp [splitRunGo, flushSeg] at hp
  · exact List.mem_map.2 ⟨RawPart.seg p, hp, hcls⟩

/-- C3 witness: the segment `"a* b"` holds an unmatched asterisk and is kept
verbatim as one plain run. -/
theorem parse_unmatched_star_plain_witness :
    classifyPart "a* b".toList = ⟨String.mk "a* b".toList, false, false⟩ ∧
    Run.mk (String.mk "a* b".toList) false false ∈ parseStyledText "a* b" :=
  parse_unmatched_star_plain "a* b" "a* b".toList (by decide) (by decide)

/-- C4 counterexample: applying the toggle twice with the same numeric range
does not restore the text. Wrapping `"ab"` at range 0..1 gives `"*a*b"`; the
indices 0..1 of the new text do not straddle the inserted asterisks, so the
second application wraps again, producing `"***a*b"`, not `"ab"`. -/
theorem applyHighlight_same_range_not_involutive :
    applyHighlight (applyHighlight "ab".toList 0 1) 0 1 ≠ "ab".toList ∧
    applyHighlight (applyHighlight "ab".toList 0 1) 0 1 = "***a*b".toList := by
  constructor
  · decide
  · decide

/-- C4 (amended): when the selected range is not already asterisk-wrapped,
toggling it and then toggling the selection of the same characters in the new
text — the range shifted right by the one inserted asterisk — removes the
asterisks and restores the original text exactly. -/
theorem applyHighlight_toggle (l : List Char) (s e : ℕ) (hse : s < e)
    (he : e ≤ l.length) (hw : isAlreadyWrapped l s e = false) :
    applyHighlight (applyHighlight l s e) (s + 1) (e + 1) = l := by
  have hsl : s ≤ l.length := le_trans (le_of_lt hse) he
  set A := l.take s with hAdef
  set M := (l.drop s).take (e - s) with hMdef
  set R := l.drop e with hRdef
  have hA : A.length = s := by
    rw [hAdef, List.length_take]
    exact min_eq_left hsl
  have hM : M.length = e - s := by
    rw [hMdef, List.length_take, List.length_drop]
    exact min_eq_left (Nat.sub_le_sub_right he s)
  have hAM : A ++ M = l.take e := by
    rw [hAdef, hMdef, ← List.take_add l s (e - s),
      Nat.add_sub_cancel' (le_of_lt hse)]
  have hl : A ++ M ++ R = l := by
    rw [hAM, hRdef, List.take_append_drop]
  have hstep1 : applyHighlight l s e = A ++ '*' :: (M ++ '*' :: R) := by
    unfold applyHighlight
    simp [hw]
  set lw := A ++ '*' :: (M ++ '*' :: R) with hlwdef
  have hre1 : lw = (A ++ ['*']) ++ (M ++ '*' :: R) := by simp [hlwdef]
  have hre2 : lw = (A ++ '*' :: M ++ ['*']) ++ R := by simp [hlwdef]
  have hlen1 : (A ++ ['*']).length = s + 1 := by simp [hA]
  have hlen2 : (A ++ '*' :: M ++ ['*']).length = e + 2 := by
    simp [hA, hM]
    omega
  have hgetS : lw.get? s = some '*' := by
    rw [hlwdef, List.get?_append_right (le_of_eq hA), hA]
    simp
  have hgetE : lw.get? (e + 1) = some '*' := by
    have hpre : (A ++ '*' :: M).length = e + 1 := by
      simp [hA, hM]
      omega
    have hre3 : lw = (A ++ '*' :: M) ++ '*' :: R := by simp [hlwdef]
    rw [hre3, List.get?_append_right (le_of_eq hpre), hpre]
    simp
  have hwrap2 : isAlreadyWrapped lw (s + 1) (e + 1) = true := by
    unfold isAlreadyWrapped
    have e1 : jsCharAt lw (((s + 1 : ℕ) : ℤ) - 1) = some '*' := by
      have h1 : ((s + 1 : ℕ) : ℤ) - 1 = ((s : ℕ) : ℤ) := by push_cast; ring
      rw [h1]
      unfold jsCharAt
      rw [if_pos (Int.natCast_nonneg s)]
      simpa using hgetS
    have e2 : jsCharAt lw ((e + 1 : ℕ) : ℤ) = some '*' := by
      unfold jsCharAt
      rw [if_pos (Int.natCast_nonneg _)]
      simpa using hgetE
    rw [e1, e2]
    rfl
  rw [hstep1]
  unfold applyHighlight
  rw [if_pos hwrap2]
  have t1 : lw.take (s + 1 - 1) = A := by
    rw [Nat.add_sub_cancel, hlwdef]
    exact List.take_left' hA
  have t2 : lw.drop (s + 1) = M ++ '*' :: R := by
    rw [hre1]
    exact List.drop_left' hlen1
  have t3 : (M ++ '*' :: R).take (e + 1 - (s + 1)) = M := by
    rw [Nat.succ_sub_succ]
    exact List.take_left' hM
  have t4 : lw.drop (e + 1 + 1) = R := by
    rw [hre2]
    exact List.drop_left' hlen2
  rw [t1, t2, t3, t4, hl]

/-- C4 witness: wrapping `"ab"` at 0..1 and unwrapping at the shifted range
1..2 restores `"ab"`. -/
theorem applyHighlight_toggle_witness :
    applyHighlight (applyHighlight "ab".toList 0 1) (0 + 1) (1 + 1) = "ab".toList :=
  applyHighlight_toggle "ab".toList 0 1 (by decide) (by decide) (by decide)

/-- C1 witness: the width law at a concrete two-fragment line produced by
wrapping `"aa bb"` at width 5 under a length measure. -/
theorem wrap_width_bound_witness :
    (2 ≤ ([⟨"aa ", false⟩, ⟨"bb", false⟩] : Line).length →
      lineSum measLen [⟨"aa ", false⟩, ⟨"bb", false⟩] ≤ 5) ∧
    (∀ f ∈ ([⟨"aa ", false⟩, ⟨"bb", false⟩] : Line), 5 < measLen f.text →
      [⟨"aa ", false⟩, ⟨"bb", false⟩] = [f]) :=
  wrap_width_bound measLen sampleStyle (parseStyledText "aa bb") 5
    (fun s => by simp [measLen]) [⟨"aa ", false⟩, ⟨"bb", false⟩]
    (by with_unfolding_all decide)

/-- C8: for every wrap result, the returned total height is exactly
`lines.length * fontSize * 1.4`; and the drawing path uses the same fixed
line-height constant, placing every draw op of line `i` at
`y + i * (fontSize * 1.4)`. -/
theorem wrap_height_formula :
    (∀ (meas : String → ℚ) (style : StyleState) (runs : List Run) (maxWidth : ℚ),
      (getWrappedStyledTextMetrics meas style runs maxWidth).height =
        ((getWrappedStyledTextMetrics meas style runs maxWidth).lines.length : ℚ) *
          (style.fontSize * (7/5))) ∧
    (∀ (meas : String → ℚ) (canvasWidth : ℚ) (lines : List Line) (x y : ℚ)
        (style : StyleState) (op : DrawOp),
      op ∈ drawStyledTextLines meas canvasWidth lines x y style →
      ∃ i, i < lines.length ∧ op.y = y + (i : ℚ) * (style.fontSize * (7/5))) := by
  constructor
  · intro meas style runs maxWidth; rfl
  · intro meas cw lines x y style op hop
    simp only [drawStyledTextLines, List.mem_flatMap] at hop
    obtain ⟨⟨i, a⟩, hil, hopin⟩ := hop
    have hy := mem_lineOps_y meas style _ _ _ _ hopin
    refine ⟨i, ?_, hy⟩
    have h2 := List.mk_mem_enum_iff_getElem?.1 hil
    exact (List.getElem?_eq_some.1 h2).1

/-- C8 witness: a concrete draw op sits on line 0 at the formula position. -/
theorem wrap_height_formula_witness :
    ∃ i, i < ([[⟨"A", false⟩]] : List Line).length ∧
      (⟨"A", "#FFFFFF", 0, 0⟩ : DrawOp).y = 0 + (i : ℚ) * (sampleStyle.fontSize * (7/5)) :=
  wrap_height_formula.2 measLen 1080 [[⟨"A", false⟩]] 0 0 sampleStyle
    ⟨"A", "#FFFFFF", 0, 0⟩ (by with_unfolding_all decide)

/-- C6: scaling a style by `f1` and then by `f2 / f1` equals scaling once by
`f2` (font size and the shadow blur and offsets compose multiplicatively),
and scaling leaves colors, alignment, highlight color, font family and the
shadow flag and color unchanged. -/
theorem scaleStyle_linearity (style : StyleState) (f1 f2 : ℚ)
    (h1 : 0 < f1) (h2 : 0 < f2) :
    scaleStyle (scaleStyle style f1) (f2 / f1) = scaleStyle style f2 ∧
    (scaleStyle style f2).color = style.color ∧
    (scaleStyle style f2).textAlign = style.textAlign ∧
    (scaleStyle style f2).highlightColor = style.highlightColor ∧
    (scaleStyle style f2).fontFamily = style.fontFamily ∧
    (scaleStyle style f2).shadow.enabled = style.shadow.enabled ∧
    (scaleStyle style f2).shadow.color = style.shadow.color := by
  have hne : f1 ≠ 0 := ne_of_gt h1
  refine ⟨?_, rfl, rfl, rfl, rfl, rfl, rfl⟩
  obtain ⟨fs, co, ff, ta, ⟨en, sc, bl, ox, oy⟩, hc⟩ := style
  have key : ∀ a : ℚ, a * f1 * (f2 / f1) = a * f2 := by
    intro a; field_simp; ring
  simp [scaleStyle, StyleState.mk.injEq, ShadowState.mk.injEq, key]

/-- C6 witness: the composition law at a concrete style and factors 2, 3. -/
theorem scaleStyle_linearity_witness :
    scaleStyle (scaleStyle sampleStyle 2) (3 / 2) = scaleStyle sampleStyle 3 ∧
    (scaleStyle sampleStyle 3).color = sampleStyle.color ∧
    (scaleStyle sampleStyle 3).textAlign = sampleStyle.textAlign ∧
    (scaleStyle sampleStyle 3).highlightColor = sampleStyle.highlightColor ∧
    (scaleStyle sampleStyle 3).fontFamily = sampleStyle.fontFamily ∧
    (scaleStyle sampleStyle 3).shadow.enabled = sampleStyle.shadow.enabled ∧
    (scaleStyle sampleStyle 3).shadow.color = sampleStyle.shadow.color :=
  scaleStyle_linearity sampleStyle 2 3 (by decide) (by decide)

/-- C9: whenever the compositor returns a surface, the surface is exactly
1080 pixels wide, and 1080 pixels tall for the 1:1 ratio or
`Math.round(1080 * 4/3) = 1440` pixels tall for the 4:5 ratio, for every
preview width. -/
theorem createSlideCanvas_dims (meas : FontSpec → String → ℚ)
    (ctxOk bgLoads logoLoads : Bool) (logoNatW logoNatH : ℚ) (slide : Slide)
    (logo : Option String) (logoSize : ℚ) (imageOverlay : ImageOverlay)
    (aspectRatio : AspectRatio) (previewWidth : ℚ) (c : SlideCanvas)
    (h : createSlideCanvas meas ctxOk bgLoads logoLoads logoNatW logoNatH slide logo
      logoSize imageOverlay aspectRatio previewWidth = some c) :
    c.width = 1080 ∧
    c.height = (if aspectRatio = AspectRatio.ratio11 then 1080 else 1440) := by
  unfold createSlideCanvas at h
  split at h
  · exact Option.noConfusion h
  · split at h
    · exact Option.noConfusion h
    · simp only [Option.some.injEq] at h
      subst h
      refine ⟨rfl, ?_⟩
      cases aspectRatio
      · rfl
      · show (canvasDims AspectRatio.ratio45).2 = 1440
        with_unfolding_all decide

/-- C9 witness: the compositor output at a concrete slide is 1080 by 1080. -/
theorem createSlideCanvas_dims_witness :
    ∃ c, createSlideCanvas measLenF true true true 1 1 sampleSlide none 25 overlayOff
        AspectRatio.ratio11 1080 = some c ∧
      c.width = 1080 ∧
      c.height = (if AspectRatio.ratio11 = AspectRatio.ratio11 then 1080 else 1440) :=
  ⟨_, rfl, createSlideCanvas_dims measLenF true true true 1 1 sampleSlide none 25 overlayOff
      AspectRatio.ratio11 1080 _ rfl⟩

/-- C2 counterexample: with a working context, a slide whose `src` is the
empty string, which is not null, still makes `createSlideCanvas` return null,
so "returns null exactly when src is null" fails as stated. -/
theorem createSlideCanvas_empty_src_null :
    createSlideCanvas measLenF true true true 1 1 emptySrcSlide none 25 overlayOff
        AspectRatio.ratio11 1080 = none ∧
    emptySrcSlide.src ≠ none := ⟨rfl, by decide⟩

/-- C2 (amended): with a working drawing context, the compositor returns null
exactly when the slide `src` is falsy, that is null or the empty string, and
this for every image load outcome, so an image load failure never produces
null; moreover a background load failure changes nothing but the
background-drawn flag — every other element is still drawn. -/
theorem createSlideCanvas_null_iff (meas : FontSpec → String → ℚ)
    (bgLoads logoLoads : Bool) (logoNatW logoNatH : ℚ) (slide : Slide)
    (logo : Option String) (logoSize : ℚ) (imageOverlay : ImageOverlay)
    (aspectRatio : AspectRatio) (previewWidth : ℚ) :
    (createSlideCanvas meas true bgLoads logoLoads logoNatW logoNatH slide logo logoSize
        imageOverlay aspectRatio previewWidth = none ↔
      (slide.src = none ∨ slide.src = some "")) ∧
    createSlideCanvas meas true bgLoads logoLoads logoNatW logoNatH slide logo logoSize
        imageOverlay aspectRatio previewWidth =
      (createSlideCanvas meas true true logoLoads logoNatW logoNatH slide logo logoSize
          imageOverlay aspectRatio previewWidth).map
        (fun c => { c with bgDrawn := bgLoads }) := by
  have hsrc : ((!jsTruthy slide.src) = true) ↔ (slide.src = none ∨ slide.src = some "") := by
    rcases slide.src with _ | s
    · simp [jsTruthy]
    · by_cases hs : s = "" <;> simp [jsTruthy, hs]
  constructor
  · by_cases hb : (!jsTruthy slide.src) = true
    · unfold createSlideCanvas
      simp only [hb, if_true]
      simpa using hsrc.1 hb
    · unfold createSlideCanvas
      simp only [Bool.not_eq_true] at hb
      simp only [hb, Bool.false_eq_true, if_false, Bool.not_true]
      constructor
      · intro hnone; exact Option.noConfusion hnone
      · intro hy
        exact absurd (hsrc.2 hy) (by simp [hb])
  · unfold createSlideCanvas
    by_cases hb : (!jsTruthy slide.src) = true
    · simp [hb]
    · simp only [Bool.not_eq_true] at hb
      simp only [hb, Bool.false_eq_true, if_false, Bool.not_true, Option.map_some]
      rfl

/-- C10: a CTA enabled with whitespace-only text passes the
`cta.enabled && cta.text` guard, wraps to zero lines, and drives the pill
width through `Math.max()` of an empty list, the error value modelled as
`none` — reachable from the public compositor interface. -/
theorem ctaPillWidth_error_reachable :
    ctaActive spaceCtaSlide = true ∧
    ∃ c, createSlideCanvas measLenF true true true 1 1 spaceCtaSlide none 25 overlayOff
          AspectRatio.ratio11 1080 = some c ∧
        c.layout.ctaLines = [] ∧ c.layout.ctaBlockWidth = none := by
  refine ⟨by decide, _, rfl, ?_, ?_⟩ <;> with_unfolding_all decide

/-- C5: with the CTA inactive (disabled or empty text) the total text height
is title + spacing + body with no CTA term; with the CTA active it is exactly
`ctaMarginTop + ctaBlockHeight` larger; under bottom alignment
`startY = canvasHeight - padding - totalTextHeight`, so enabling a CTA with
nonempty text moves `startY` upward by exactly that amount. -/
theorem totalTextHeight_cta (meas : FontSpec → String → ℚ) (slide : Slide)
    (scale canvasHeight reserved : ℚ) :
    (ctaActive slide = false →
      (slideLayout meas slide scale canvasHeight reserved).totalTextHeight =
        (slideLayout meas slide scale canvasHeight reserved).titleHeight +
          (slideLayout meas slide scale canvasHeight reserved).scaledSpacing +
          (slideLayout meas slide scale canvasHeight reserved).bodyHeight) ∧
    (ctaActive slide = true →
      (slideLayout meas slide scale canvasHeight reserved).totalTextHeight =
        (slideLayout meas slide scale canvasHeight reserved).titleHeight +
          (slideLayout meas slide scale canvasHeight reserved).scaledSpacing +
          (slideLayout meas slide scale canvasHeight reserved).bodyHeight +
          ((slideLayout meas slide scale canvasHeight reserved).ctaMarginTop +
            (slideLayout meas slide scale canvasHeight reserved).ctaBlockHeight)) ∧
    (slide.layoutStyle.verticalAlign = VerticalAlign.bottom →
      (slideLayout meas slide scale canvasHeight reserved).startY =
        canvasHeight - (slideLayout meas slide scale canvasHeight reserved).padding -
          (slideLayout meas slide scale canvasHeight reserved).totalTextHeight) ∧
    (slide.cta.text ≠ "" → slide.layoutStyle.verticalAlign = VerticalAlign.bottom →
      (slideLayout meas { slide with cta := { slide.cta with enabled := true } }
          scale canvasHeight reserved).startY =
        (slideLayout meas { slide with cta := { slide.cta with enabled := false } }
            scale canvasHeight reserved).startY -
          ((slideLayout meas { slide with cta := { slide.cta with enabled := true } }
              scale canvasHeight reserved).ctaMarginTop +
            (slideLayout meas { slide with cta := { slide.cta with enabled := true } }
                scale canvasHeight reserved).ctaBlockHeight)) := by
  refine ⟨?_, ?_, ?_, ?_⟩
  · intro h; simp [slideLayout, h]
  · intro h; simp [slideLayout, h]
  · intro h; simp [slideLayout, h]
  · intro ht hv
    have hOn : ctaActive { slide with cta := { slide.cta with enabled := true } } = true := by
      simp [ctaActive, ht]
    have hOff : ctaActive { slide with cta := { slide.cta with enabled := false } } = false := by
      simp [ctaActive]
    simp [slideLayout, hOn, hOff, hv]
    ring

/-- C7: an explicit break marker anywhere in the parsed runs flushes the line
under construction (if nonempty) and pushes exactly one empty line; the runs
before and the runs after the break wrap independently, so fragments from the
two sides never share a visual line; in particular `"A\nB"` wraps to three
lines with the `"A"` content ending its own line. -/
theorem wrap_break_marker (meas : String → ℚ) (style : StyleState) (maxWidth : ℚ)
    (a b : List Run) (r : Run) (hr : r.isNewline = true) :
    ((getWrappedStyledTextMetrics meas style (a ++ r :: b) maxWidth).lines =
      (getWrappedStyledTextMetrics meas style a maxWidth).lines ++ [[]] ++
        (getWrappedStyledTextMetrics meas style b maxWidth).lines) ∧
    (getWrappedStyledTextMetrics measLen sampleStyle (parseStyledText "A\nB") 100).lines =
      [[⟨"A", false⟩], [], [⟨"B", false⟩]] := by
  constructor
  · unfold getWrappedStyledTextMetrics
    simp only [List.foldl_append, List.foldl_cons]
    have hnl : stepRun meas maxWidth (a.foldl (stepRun meas maxWidth) ⟨[], [], 0⟩) r =
        ⟨flushLines (a.foldl (stepRun meas maxWidth) ⟨[], [], 0⟩) ++ [[]], [], 0⟩ := by
      unfold stepRun
      simp [hr]
    rw [hnl]
    have hrepr : (⟨flushLines (a.foldl (stepRun meas maxWidth) ⟨[], [], 0⟩) ++ [[]], [], 0⟩ :
        WrapState) =
        ⟨(flushLines (a.foldl (stepRun meas maxWidth) ⟨[], [], 0⟩) ++ [[]]) ++
            (⟨[], [], 0⟩ : WrapState).lines,
          (⟨[], [], 0⟩ : WrapState).currentLine, (⟨[], [], 0⟩ : WrapState).currentLineWidth⟩ := by
      simp
    rw [hrepr, foldlRuns_shift, flushLines_shift]
  · with_unfolding_all decide

/-- C7 witness: the break law and the concrete wrap at `"A\nB"`. -/
theorem wrap_break_marker_witness :
    ((getWrappedStyledTextMetrics measLen sampleStyle
        ([⟨"A", false, false⟩] ++ ⟨"", false, true⟩ :: [⟨"B", false, false⟩]) 100).lines =
      (getWrappedStyledTextMetrics measLen sampleStyle [⟨"A", false, false⟩] 100).lines ++
        [[]] ++
        (getWrappedStyledTextMetrics measLen sampleStyle [⟨"B", false, false⟩] 100).lines) ∧
    (getWrappedStyledTextMetrics measLen sampleStyle (parseStyledText "A\nB") 100).lines =
      [[⟨"A", false⟩], [], [⟨"B", false⟩]] :=
  wrap_break_marker measLen sampleStyle 100 [⟨"A", false, false⟩] [⟨"B", false, false⟩]
    ⟨"", false, true⟩ rfl

/-- C5 witness: enabling the CTA of the sample slide moves the bottom-aligned
start up by the CTA margin plus pill height. -/
theorem totalTextHeight_cta_witness :
    (slideLayout measLenF { sampleSlide with cta := { sampleSlide.cta with enabled := true } }
        1 1080 0).startY =
      (slideLayout measLenF { sampleSlide with cta := { sampleSlide.cta with enabled := false } }
          1 1080 0).startY -
        ((slideLayout measLenF { sampleSlide with cta := { sampleSlide.cta with enabled := true } }
            1 1080 0).ctaMarginTop +
          (slideLayout measLenF
              { sampleSlide with cta := { sampleSlide.cta with enabled := true } }
              1 1080 0).ctaBlockHeight) :=
  (totalTextHeight_cta measLenF sampleSlide 1 1080 0).2.2.2 (by decide) rfl

end Carrusel
